import Mathlib

/-! # Verification of the agent-mode command pipeline

Shallow embedding of `voice_agent/execute.py` and
`voice_agent/command_parser.py`: the command executor, the `&&` chain
executor, the LLM-output parser, the catalog validator and the
orchestrator, together with theorems checking the specification's
claims about them.

The OS boundary (`subprocess.run`) and the platform-dependent library
tokenizer (`shlex.split`, which branches on `os.name`) are modelled as
an oracle `Env`; everything the repository's own code does is embedded
as executable Lean functions over `List Char` / `String`.
-/

namespace VoiceAgent

/-- The backtick character (code point 96). -/
def tickChar : Char := Char.ofNat 96

/-- The backtick as a one-character string. -/
def tickStr : String := String.mk [tickChar]

/-- The apostrophe character (code point 39). -/
def aposChar : Char := Char.ofNat 39

/-- The apostrophe as a one-character string. -/
def apos : String := String.mk [aposChar]

/-- Characters removed by Python `str.strip()` / split on by `str.split()`,
modelled on the ASCII range (space, tab, newline, carriage return,
vertical tab, form feed). -/
def pyIsSpace (c : Char) : Bool :=
  c == ' ' || c == '\t' || c == '\n' || c == '\r' ||
  c == Char.ofNat 11 || c == Char.ofNat 12

/-- `str.strip()` on a character list: drop whitespace from both ends. -/
def pyStripL (l : List Char) : List Char :=
  (l.dropWhile pyIsSpace).rdropWhile pyIsSpace

/-- Python `str.strip()`. -/
def pyStrip (s : String) : String := String.mk (pyStripL s.data)

/-- Python `\w` word characters, modelled on the ASCII range. -/
def pyIsWordChar (c : Char) : Bool := c.isAlphanum || c == '_'

/-- ASCII lowercasing, modelling the case folding done by `re.IGNORECASE`
on the all-ASCII refusal patterns. -/
def lowerAscii (s : String) : String := String.mk (s.data.map Char.toLower)

/-- Heads a list starting with the two-character sequence `$(`? -/
def startsDollarParen : List Char → Bool
  | '$' :: '(' :: _ => true
  | _ => false

/-- Does the list contain the two-character sequence `$(` anywhere? -/
def hasDollarParen : List Char → Bool
  | [] => false
  | c :: rest => startsDollarParen (c :: rest) || hasDollarParen rest

/-- `execute.py` line 18: `_DANGEROUS_PATTERN = re.compile(r"[;|`]|\$\(")`.
`_DANGEROUS_PATTERN.search(command)` succeeds iff the raw string contains
a semicolon, a pipe, a backtick, or the subshell-open sequence `$(`. -/
def dangerousHit (s : String) : Bool :=
  (s.data.any fun c => c == ';' || c == '|' || c == tickChar) ||
    hasDollarParen s.data

/-- `execute.py`: the `ExecutionResult` frozen dataclass. -/
structure ExecutionResult where
  success : Bool
  stdout : String
  stderr : String
  return_code : Int
  command : String
deriving DecidableEq, Repr

/-- Outcomes of the `subprocess.run` call that `execute.py` distinguishes
with its `try/except` arms: normal completion, `subprocess.TimeoutExpired`,
and `FileNotFoundError`.  Any other exception would propagate out of
`execute_command`; no claim concerns that case. -/
inductive SpawnOutcome where
  | completed (returncode : Int) (stdout stderr : String)
  | timedOut
  | missing
deriving DecidableEq, Repr

/-- Oracle for the pieces outside the repository's own code:
`shlex.split` (platform-dependent library tokenizer; `.error` models a
`ValueError` for unbalanced quoting) and `subprocess.run` (argv, timeout,
cwd). -/
structure Env where
  shlexSplit : String → Except String (List String)
  run : List String → Nat → Option String → SpawnOutcome

/-- Python `repr` of a string (the `!r` format spec), modelled for strings
without control characters: Python uses double quotes when the string
contains a single quote and no double quote, otherwise single quotes, and
escapes backslashes and the chosen quote. -/
def pyReprStr (s : String) : String :=
  let q : Char := if s.data.contains aposChar && !(s.data.contains '"') then '"' else aposChar
  String.mk (q :: ((s.data.map fun c => if c == '\\' || c == q then ['\\', c] else [c]).flatten ++ [q]))

/-- The exact rejection message built in `execute.py` lines 58-62. -/
def rejectionMessage : String :=
  "Command rejected: contains disallowed shell metacharacters (;, |, " ++ tickStr ++ ", $()."

/-- `execute_command` (execute.py lines 31-110), instrumented: the second
component records the argv of every child process handed to
`subprocess.run` (so `[]` means no process was spawned). -/
def executeCommandT (env : Env) (command : String) (timeout : Nat) (cwd : Option String) :
    ExecutionResult × List (List String) :=
  if dangerousHit command then
    (⟨false, "", rejectionMessage, -1, command⟩, [])
  else
    match env.shlexSplit command with
    | .error exc => (⟨false, "", "Failed to parse command: " ++ exc, -1, command⟩, [])
    | .ok argv =>
      match env.run argv timeout cwd with
      | .completed rc out err => (⟨rc == 0, out, err, rc, command⟩, [argv])
      | .timedOut =>
          (⟨false, "", "Command timed out after " ++ toString timeout ++ " seconds.", -1, command⟩,
            [argv])
      | .missing =>
          (⟨false, "", "Command not found: " ++ pyReprStr (argv.headD ""), 127, command⟩, [argv])

/-- `execute_command`: the structured result alone. -/
def execute_command (env : Env) (command : String) (timeout : Nat) (cwd : Option String) :
    ExecutionResult :=
  (executeCommandT env command timeout cwd).1

/-- Python `command_string.split("&&")` on a character list: left-to-right,
non-overlapping split on the literal two-character separator. -/
def splitAmpAmp : List Char → List (List Char)
  | '&' :: '&' :: tail => [] :: splitAmpAmp tail
  | c :: rest =>
    match splitAmpAmp rest with
    | cur :: others => (c :: cur) :: others
    | [] => [[c]]
  | [] => [[]]

/-- `execute.py` line 137 (and the same expression in
`command_parser.py` line 101):
`[cmd.strip() for cmd in command_string.split("&&") if cmd.strip()]`. -/
def chainSegments (command_string : String) : List String :=
  ((splitAmpAmp command_string.data).map fun l => String.mk (pyStripL l)).filter
    fun s => s ≠ ""

/-- The `for` loop of `execute_chain` (execute.py lines 140-145),
instrumented with the concatenated spawn trace. -/
def runChainT (env : Env) (timeout : Nat) (cwd : Option String) :
    List String → List ExecutionResult × List (List String)
  | [] => ([], [])
  | cmd :: rest =>
    let r := executeCommandT env cmd timeout cwd
    if r.1.success then
      let rs := runChainT env timeout cwd rest
      (r.1 :: rs.1, r.2 ++ rs.2)
    else ([r.1], r.2)

/-- `execute_chain` (execute.py lines 113-146), instrumented. -/
def executeChainT (env : Env) (command_string : String) (timeout : Nat) (cwd : Option String) :
    List ExecutionResult × List (List String) :=
  runChainT env timeout cwd (chainSegments command_string)

/-- `execute_chain`: the list of structured results alone. -/
def execute_chain (env : Env) (command_string : String) (timeout : Nat) (cwd : Option String) :
    List ExecutionResult :=
  (executeChainT env command_string timeout cwd).1

/-- Does the list start with three backticks? -/
def isTickStart : List Char → Bool
  | a :: b :: c :: _ => a == tickChar && b == tickChar && c == tickChar
  | _ => false

/-- Does the list contain three consecutive backticks anywhere? -/
def hasTick : List Char → Bool
  | [] => false
  | c :: rest => isTickStart (c :: rest) || hasTick rest

/-- Split at the first occurrence of three consecutive backticks:
`some (before, after)` where `l = before ++ [tick, tick, tick] ++ after`
and `before` holds no such occurrence. -/
def splitAtTick : List Char → Option (List Char × List Char)
  | [] => none
  | c :: rest =>
    if isTickStart (c :: rest) then some ([], rest.drop 2)
    else
      match splitAtTick rest with
      | some (b, a) => some (c :: b, a)
      | none => none

/-- Length of the maximal initial run of `\w` word characters. -/
def wordRunLen : List Char → Nat
  | [] => 0
  | c :: rest => if pyIsWordChar c then wordRunLen rest + 1 else 0

/-- Drop a single leading newline, if present (the `\n?` of the fence
pattern). -/
def dropNl : List Char → List Char
  | [] => []
  | c :: t => if c == '\n' then t else c :: t

/-- One attempt of the fence regex `(?:\w*\n?)(.*?)` at a position just
after an opening triple backtick: skip the greedy language-tag word run
and an optional newline, then lazily capture up to the next triple
backtick.  Because the skipped characters are word characters or a
newline — never a backtick — the greedy first attempt is decisive: no
backtracking into shorter word runs can succeed when this fails, and
none is reached when it succeeds. -/
def fenceAttempt (l : List Char) : Option (List Char) :=
  (splitAtTick (dropNl (l.drop (wordRunLen l)))).map Prod.fst

/-- `re.search(r"```(?:\w*\n?)?(.*?)```", text, re.DOTALL)`: try each start
position left to right; at a position opening with three backticks, run
`fenceAttempt` on the remainder; on failure resume the search one
character later.  Returns the first match's capture group. -/
def fenceSearch : List Char → Option (List Char)
  | [] => none
  | c :: rest =>
    if isTickStart (c :: rest) then
      match fenceAttempt (rest.drop 2) with
      | some cap => some cap
      | none => fenceSearch rest
    else fenceSearch rest

/-- `_strip_fences` (command_parser.py lines 150-157): keep the first
fenced block's inner content, stripped; otherwise the text unchanged. -/
def strip_fences (text : String) : String :=
  match fenceSearch text.data with
  | some cap => pyStrip (String.mk cap)
  | none => text

/-- `command_parser.py`: the `ParsedCommand` frozen dataclass. -/
structure ParsedCommand where
  raw : String
  command : String
  is_valid : Bool
  rejection_reason : String
deriving DecidableEq, Repr

/-- `_REFUSAL_PATTERNS` (command_parser.py lines 26-33).  Each of the five
case-insensitive regexes is a finite alternation of literal phrases;
this list enumerates those phrases, so that `re.search` over the pattern
list is exactly a case-insensitive substring test against this list. -/
def REFUSAL_PHRASES : List String :=
  [ "i" ++ apos ++ "m sorry", "i" ++ apos ++ "m unable", "i" ++ apos ++ "m not able",
    "i am sorry", "i am unable", "i am not able",
    "doesn" ++ apos ++ "t match", "does not match",
    "don" ++ apos ++ "t match", "do not match",
    "no matching command", "no available command", "no valid command",
    "cannot find", "cannot identify", "cannot determine",
    "i can" ++ apos ++ "t", "i cannot" ]

/-- Boolean infix test on character lists. -/
def isSubList : List Char → List Char → Bool
  | pat, [] => pat.isEmpty
  | pat, c :: rest => pat.isPrefixOf (c :: rest) || isSubList pat rest

/-- The refusal scan of `parse_llm_output` (lines 59-65): does any refusal
phrase occur, case-insensitively, in the cleaned text? -/
def isRefusal (s : String) : Bool :=
  REFUSAL_PHRASES.any fun lit => isSubList lit.data (lowerAscii s).data

/-- `parse_llm_output` (command_parser.py lines 36-69). -/
def parse_llm_output (raw : String) : ParsedCommand :=
  let cleaned := pyStrip (strip_fences raw)
  if cleaned == "" then ⟨raw, "", false, "Empty command output."⟩
  else if isRefusal cleaned then ⟨raw, "", false, cleaned⟩
  else ⟨raw, cleaned, true, ""⟩

/-- First maximal whitespace-free run:
`segment.split()[0] if segment.split() else ""`. -/
def firstTokenL : List Char → List Char
  | [] => []
  | c :: rest =>
    if pyIsSpace c then firstTokenL rest
    else c :: rest.takeWhile fun d => !pyIsSpace d

/-- The leading whitespace-delimited token of a segment. -/
def firstToken (segment : String) : String := String.mk (firstTokenL segment.data)

/-- Python string `<`: lexicographic comparison by code point. -/
def strLexLt : List Char → List Char → Bool
  | [], [] => false
  | [], _ :: _ => true
  | _ :: _, [] => false
  | a :: as, b :: bs => a.toNat < b.toNat || (a == b && strLexLt as bs)

/-- Insert into a sorted list of strings (stable: placed before the first
strictly greater element, after equal ones seen so far). -/
def insertSorted (x : String) : List String → List String
  | [] => [x]
  | y :: rest =>
    if strLexLt y.data x.data then y :: insertSorted x rest else x :: y :: rest

/-- Python `sorted()` on strings (lexicographic by code point). -/
def sortStrings : List String → List String
  | [] => []
  | x :: rest => insertSorted x (sortStrings rest)

/-- The rejection message of `validate_against_catalog` (lines 104-108):
`f"Unknown command: {first_token!r}. Available: {', '.join(sorted(known_commands))}"`. -/
def unknownMessage (first_token : String) (known : List String) : String :=
  "Unknown command: " ++ pyReprStr first_token ++ ". Available: " ++
    String.intercalate ", " (sortStrings known)

/-- The `for segment in segments` loop of `validate_against_catalog`
(lines 101-110): return the rejection for the first segment whose leading
token is not in the catalog, else the input unchanged. -/
def validateSegments (parsed : ParsedCommand) (known : List String) :
    List String → ParsedCommand
  | [] => parsed
  | seg :: rest =>
    if known.contains (firstToken seg) then validateSegments parsed known rest
    else ⟨parsed.raw, parsed.command, false, unknownMessage (firstToken seg) known⟩

/-- `validate_against_catalog` (command_parser.py lines 72-110). -/
def validate_against_catalog (parsed : ParsedCommand) (known_commands : List String) :
    ParsedCommand :=
  if !parsed.is_valid then parsed
  else if known_commands.isEmpty then parsed
  else validateSegments parsed known_commands (chainSegments parsed.command)

/-- `execute_parsed_command` (command_parser.py lines 113-142),
instrumented; `.error` models the raised `ValueError`. -/
def executeParsedCommandT (env : Env) (parsed : ParsedCommand) (timeout : Nat)
    (cwd : Option String) : Except String (List ExecutionResult × List (List String)) :=
  if !parsed.is_valid then
    .error ("Cannot execute invalid command: " ++ parsed.rejection_reason)
  else .ok (executeChainT env parsed.command timeout cwd)

/-- `execute_parsed_command`: result or raised-`ValueError` message. -/
def execute_parsed_command (env : Env) (parsed : ParsedCommand) (timeout : Nat)
    (cwd : Option String) : Except String (List ExecutionResult) :=
  (executeParsedCommandT env parsed timeout cwd).map Prod.fst

/-- Three backticks, the fence delimiter. -/
def tick3 : List Char := [tickChar, tickChar, tickChar]

/-- The spec's fence example `"```bash\nls-dir /home\n```"`. -/
def fenceExample : String :=
  String.mk tick3 ++ "bash\nls-dir /home\n" ++ String.mk tick3

/-- A concrete environment where every spawn completes successfully. -/
def envDemo : Env :=
  ⟨fun s => .ok [s], fun _ _ _ => .completed 0 "" ""⟩

/-- A concrete environment where every spawn times out. -/
def envSleepy : Env :=
  ⟨fun s => .ok [s], fun _ _ _ => .timedOut⟩

theorem hasDollarParen_append (s t : List Char) :
    hasDollarParen (s ++ '$' :: '(' :: t) = true := by
  induction s with
  | nil => simp [hasDollarParen, startsDollarParen]
  | cons c rest ih => simp [hasDollarParen, ih]

/-- **C1.** A command string containing `;`, `|`, a backtick, or the
two-character sequence `$(` anywhere in the raw string is rejected by
`execute_command`: the result has `success = false`, `return_code = -1`
and the stderr message naming the disallowed shell metacharacters, and
the spawn trace is empty — no child process is started. -/
theorem c1_metachar_rejection (cmd : String)
    (h : ';' ∈ cmd.data ∨ '|' ∈ cmd.data ∨ tickChar ∈ cmd.data ∨
      ['$', '('] <:+: cmd.data) :
    ∀ (env : Env) (timeout : Nat) (cwd : Option String),
      executeCommandT env cmd timeout cwd =
        (⟨false, "", rejectionMessage, -1, cmd⟩, []) := by
  intro env timeout cwd
  have hd : dangerousHit cmd = true := by
    unfold dangerousHit
    simp only [Bool.or_eq_true, List.any_eq_true]
    rcases h with h | h | h | h
    · exact Or.inl ⟨';', h, by decide⟩
    · exact Or.inl ⟨'|', h, by decide⟩
    · exact Or.inl ⟨tickChar, h, by decide⟩
    · obtain ⟨s, t, hst⟩ := h
      refine Or.inr ?_
      rw [← hst]
      simpa using hasDollarParen_append s t
  simp [executeCommandT, hd]

/-- Witness for C1 at the spec's own example input. -/
theorem c1_metachar_rejection_witness :
    executeCommandT envDemo "echo foo; echo bar" 30 none =
      (⟨false, "", rejectionMessage, -1, "echo foo; echo bar"⟩, []) :=
  c1_metachar_rejection "echo foo; echo bar" (Or.inl (by decide)) envDemo 30 none

/-- **C5.** `execute_parsed_command` raises (models: returns `.error`)
exactly when `is_valid` is false, with the message
`"Cannot execute invalid command: "` followed by the rejection reason;
on a valid input it returns exactly the chain executor's result. -/
theorem c5_orchestrator_guard (env : Env) (p : ParsedCommand) (timeout : Nat)
    (cwd : Option String) :
    (p.is_valid = false →
      execute_parsed_command env p timeout cwd =
        .error ("Cannot execute invalid command: " ++ p.rejection_reason)) ∧
    (p.is_valid = true →
      execute_parsed_command env p timeout cwd =
        .ok (execute_chain env p.command timeout cwd)) := by
  constructor
  · intro h
    simp [execute_parsed_command, executeParsedCommandT, h, Except.map]
  · intro h
    simp [execute_parsed_command, executeParsedCommandT, h, execute_chain, Except.map]

/-- Witness for C5: the spec's guard example and a valid command. -/
theorem c5_orchestrator_guard_witness :
    execute_parsed_command envDemo ⟨"bad", "", false, "Invalid."⟩ 30 none =
      .error ("Cannot execute invalid command: " ++ "Invalid.") ∧
    execute_parsed_command envDemo ⟨"echo hello", "echo hello", true, ""⟩ 30 none =
      .ok (execute_chain envDemo "echo hello" 30 none) :=
  ⟨(c5_orchestrator_guard envDemo ⟨"bad", "", false, "Invalid."⟩ 30 none).1 rfl,
   (c5_orchestrator_guard envDemo ⟨"echo hello", "echo hello", true, ""⟩ 30 none).2 rfl⟩

/-- **C8.** When the spawned process times out, `execute_command` returns
(rather than raising) a result with `success = false`,
`return_code = -1`, and a stderr message that the command timed out
after `timeout` seconds. -/
theorem c8_timeout_result (env : Env) (cmd : String) (timeout : Nat) (cwd : Option String)
    (argv : List String)
    (h1 : dangerousHit cmd = false)
    (h2 : env.shlexSplit cmd = .ok argv)
    (h3 : env.run argv timeout cwd = .timedOut) :
    execute_command env cmd timeout cwd =
      ⟨false, "", "Command timed out after " ++ toString timeout ++ " seconds.", -1, cmd⟩ := by
  simp [execute_command, executeCommandT, h1, h2, h3]

/-- Witness for C8: a sleeping command under a 1-second timeout. -/
theorem c8_timeout_result_witness :
    execute_command envSleepy "sleep 60" 1 none =
      ⟨false, "", "Command timed out after " ++ toString 1 ++ " seconds.", -1, "sleep 60"⟩ :=
  c8_timeout_result envSleepy "sleep 60" 1 none ["sleep 60"] (by decide) rfl rfl

/-- **C7.** When the cleaned (fence-stripped, stripped) text is non-empty
and matches a refusal pattern, `parse_llm_output` returns
`is_valid = false` with the cleaned text itself as the rejection reason
and the original input preserved in `raw`. -/
theorem c7_refusal_detection (raw : String)
    (h1 : pyStrip (strip_fences raw) ≠ "")
    (h2 : isRefusal (pyStrip (strip_fences raw)) = true) :
    parse_llm_output raw = ⟨raw, "", false, pyStrip (strip_fences raw)⟩ := by
  simp [parse_llm_output, h1, h2]

/-- Witness for C7 at the spec's refusal example. -/
theorem c7_refusal_detection_witness :
    parse_llm_output ("I" ++ apos ++ "m sorry, I cannot find a matching command.") =
      ⟨"I" ++ apos ++ "m sorry, I cannot find a matching command.", "", false,
        pyStrip (strip_fences ("I" ++ apos ++ "m sorry, I cannot find a matching command."))⟩ :=
  c7_refusal_detection ("I" ++ apos ++ "m sorry, I cannot find a matching command.")
    (by decide) (by decide)

/-- The command field is never altered by the validator's loop. -/
theorem validateSegments_command (p : ParsedCommand) (known : List String) :
    ∀ segs : List String, (validateSegments p known segs).command = p.command
  | [] => rfl
  | seg :: rest => by
    unfold validateSegments
    split
    · exact validateSegments_command p known rest
    · rfl

/-- **C3 counterexample.** `validate_against_catalog` produces a
`ParsedCommand` with `is_valid = false` whose `command` field is the
non-empty original command, refuting "invalid implies empty command". -/
theorem c3_counterexample :
    (validate_against_catalog (parse_llm_output "rm -rf /") ["ls-dir"]).is_valid = false ∧
    ¬(validate_against_catalog (parse_llm_output "rm -rf /") ["ls-dir"]).command = "" := by
  constructor
  · decide
  · decide

/-- **C3 amended.** Outputs of `parse_llm_output` with `is_valid = false`
have an empty `command`; `validate_against_catalog` instead always
preserves the `command` field of its input (so its rejections carry the
original, possibly non-empty, command text). -/
theorem c3_invalid_command_field (raw : String) (p : ParsedCommand) (known : List String) :
    ((parse_llm_output raw).is_valid = false → (parse_llm_output raw).command = "") ∧
    (validate_against_catalog p known).command = p.command := by
  constructor
  · simp only [parse_llm_output]
    split
    · intro _; rfl
    · split
      · intro _; rfl
      · intro h; simp at h
  · unfold validate_against_catalog
    split
    · rfl
    · split
      · rfl
      · exact validateSegments_command p known _

/-- Witness for the amended C3. -/
theorem c3_invalid_command_field_witness :
    ((parse_llm_output "").is_valid = false → (parse_llm_output "").command = "") ∧
    (validate_against_catalog ⟨"x", "x", true, ""⟩ ["ls-dir"]).command = "x" :=
  c3_invalid_command_field "" ⟨"x", "x", true, ""⟩ ["ls-dir"]

/-- **C10.** The separator-only output `"&&"` passes the whole pipeline:
it parses as a valid command, any non-empty catalog validates it
unchanged (the split yields no segments, so no leading token is checked),
and executing it yields the empty result list with an empty spawn trace
— no process is started and nothing is raised. -/
theorem c10_separator_only (known : List String) (h : known ≠ [])
    (env : Env) (timeout : Nat) (cwd : Option String) :
    parse_llm_output "&&" = ⟨"&&", "&&", true, ""⟩ ∧
    validate_against_catalog (parse_llm_output "&&") known = parse_llm_output "&&" ∧
    executeParsedCommandT env (parse_llm_output "&&") timeout cwd = .ok ([], []) := by
  have hp : parse_llm_output "&&" = ⟨"&&", "&&", true, ""⟩ := by decide
  have hseg : chainSegments "&&" = [] := by decide
  have hk : known.isEmpty = false := by
    cases known with
    | nil => exact absurd rfl h
    | cons a l => rfl
  refine ⟨hp, ?_, ?_⟩
  · rw [hp]
    unfold validate_against_catalog
    simp [hk, hseg, validateSegments]
  · rw [hp]
    unfold executeParsedCommandT executeChainT
    simp [hseg, runChainT]

theorem wordRunLen_le (l : List Char) : wordRunLen l ≤ l.length := by
  induction l with
  | nil => exact Nat.le_refl 0
  | cons c rest ih =>
    unfold wordRunLen
    split
    · exact Nat.succ_le_succ ih
    · exact Nat.zero_le _

/-- The word run stops no later than the first non-word character. -/
theorem wordRunLen_append_le (m : List Char) (c : Char) (rest : List Char)
    (h : pyIsWordChar c = false) : wordRunLen (m ++ c :: rest) ≤ m.length := by
  induction m with
  | nil => simp [wordRunLen, h]
  | cons d m' ih =>
    simp only [List.cons_append]
    unfold wordRunLen
    split
    · exact Nat.succ_le_succ ih
    · exact Nat.zero_le _

/-- A list containing three consecutive backticks always splits. -/
theorem splitAtTick_isSome (m a : List Char) :
    (splitAtTick (m ++ tickChar :: tickChar :: tickChar :: a)).isSome = true := by
  induction m with
  | nil => simp [splitAtTick, isTickStart]
  | cons c m' ih =>
    rw [List.cons_append]
    unfold splitAtTick
    split
    · rfl
    · obtain ⟨⟨b, d⟩, hbd⟩ := Option.isSome_iff_exists.mp ih
      rw [hbd]
      rfl

/-- The fence-attempt lookahead succeeds whenever a closing triple
backtick follows: the skipped word run and optional newline never reach
past a backtick. -/
theorem fenceAttempt_isSome (m a : List Char) :
    (fenceAttempt (m ++ tickChar :: tickChar :: tickChar :: a)).isSome = true := by
  have htickw : pyIsWordChar tickChar = false := by decide
  have hn : wordRunLen (m ++ tickChar :: tickChar :: tickChar :: a) ≤ m.length :=
    wordRunLen_append_le m tickChar (tickChar :: tickChar :: a) htickw
  unfold fenceAttempt
  have hda : (m ++ tickChar :: tickChar :: tickChar :: a).drop
        (wordRunLen (m ++ tickChar :: tickChar :: tickChar :: a)) =
      m.drop (wordRunLen (m ++ tickChar :: tickChar :: tickChar :: a)) ++
        tickChar :: tickChar :: tickChar :: a :=
    List.drop_append_of_le_length hn
  rw [hda]
  rcases hdrop : m.drop (wordRunLen (m ++ tickChar :: tickChar :: tickChar :: a))
    with _ | ⟨d, ds⟩
  · rw [List.nil_append]
    have hnl : (tickChar == '\n') = false := by decide
    simp only [dropNl, hnl, Bool.false_eq_true, if_false]
    obtain ⟨⟨b, d⟩, hbd⟩ := Option.isSome_iff_exists.mp (splitAtTick_isSome [] a)
    rw [List.nil_append] at hbd
    rw [hbd]
    rfl
  · rw [List.cons_append]
    simp only [dropNl]
    split
    · obtain ⟨⟨b, e⟩, hbd⟩ := Option.isSome_iff_exists.mp (splitAtTick_isSome ds a)
      rw [hbd]
      rfl
    · obtain ⟨⟨b, e⟩, hbd⟩ := Option.isSome_iff_exists.mp (splitAtTick_isSome (d :: ds) a)
      rw [List.cons_append] at hbd
      rw [hbd]
      rfl

/-- The regex search succeeds on any text containing two triple-backtick
delimiters. -/
theorem fenceSearch_isSome (b m a : List Char) :
    (fenceSearch (b ++ tickChar :: tickChar :: tickChar ::
      (m ++ tickChar :: tickChar :: tickChar :: a))).isSome = true := by
  induction b with
  | nil =>
    rw [List.nil_append]
    unfold fenceSearch
    rw [if_pos (by simp [isTickStart])]
    obtain ⟨cap, hcap⟩ := Option.isSome_iff_exists.mp (fenceAttempt_isSome m a)
    simp only [List.drop_succ_cons, List.drop_zero]
    rw [hcap]
    rfl
  | cons c b' ih =>
    rw [List.cons_append]
    unfold fenceSearch
    split
    · rcases hat : fenceAttempt ((b' ++ tickChar :: tickChar :: tickChar ::
          (m ++ tickChar :: tickChar :: tickChar :: a)).drop 2) with _ | cap
      · exact ih
      · rfl
    · exact ih

/-- **C6.** If the input contains a fenced block (two triple-backtick
delimiters, with or without a language tag), `parse_llm_output` replaces
the whole input with the first fenced block's inner content, trimmed;
otherwise the raw text is used unchanged.  At the spec's example,
`parse_llm_output` on a `bash`-tagged fenced `ls-dir /home` yields the
command `ls-dir /home`. -/
theorem c6_fence_stripping (raw : String) :
    ((∃ b m a, raw.data = b ++ tick3 ++ m ++ tick3 ++ a) →
      ∃ cap, fenceSearch raw.data = some cap ∧
        strip_fences raw = pyStrip (String.mk cap)) ∧
    (fenceSearch raw.data = none → strip_fences raw = raw) ∧
    parse_llm_output fenceExample = ⟨fenceExample, "ls-dir /home", true, ""⟩ := by
  refine ⟨?_, ?_, by decide⟩
  · rintro ⟨b, m, a, hdecomp⟩
    have hsh : b ++ tick3 ++ m ++ tick3 ++ a =
        b ++ tickChar :: tickChar :: tickChar ::
          (m ++ tickChar :: tickChar :: tickChar :: a) := by
      simp [tick3, List.append_assoc]
    have hsome : (fenceSearch raw.data).isSome = true := by
      rw [hdecomp, hsh]
      exact fenceSearch_isSome b m a
    obtain ⟨cap, hcap⟩ := Option.isSome_iff_exists.mp hsome
    exact ⟨cap, hcap, by simp [strip_fences, hcap]⟩
  · intro h
    simp [strip_fences, h]

/-- Witness for C6 at the spec's fenced example. -/
theorem c6_fence_stripping_witness :
    ((∃ b m a, fenceExample.data = b ++ tick3 ++ m ++ tick3 ++ a) →
      ∃ cap, fenceSearch fenceExample.data = some cap ∧
        strip_fences fenceExample = pyStrip (String.mk cap)) ∧
    (fenceSearch fenceExample.data = none → strip_fences fenceExample = fenceExample) ∧
    parse_llm_output fenceExample = ⟨fenceExample, "ls-dir /home", true, ""⟩ :=
  c6_fence_stripping fenceExample

/-- If every segment's leading token is in the catalog, the loop returns
the input unchanged. -/
theorem validateSegments_all_pass (p : ParsedCommand) (known : List String) :
    ∀ segs : List String, (∀ seg ∈ segs, firstToken seg ∈ known) →
      validateSegments p known segs = p
  | [], _ => rfl
  | seg :: rest, h => by
    unfold validateSegments
    have hc : known.contains (firstToken seg) = true := by
      simpa using h seg (List.mem_cons_self seg rest)
    rw [if_pos hc]
    exact validateSegments_all_pass p known rest fun s hs => h s (List.mem_cons_of_mem seg hs)

/-- If some segment's leading token is missing from the catalog, the loop
returns the rejection record built for such a token. -/
theorem validateSegments_finds (p : ParsedCommand) (known : List String) :
    ∀ segs : List String, (∃ seg ∈ segs, firstToken seg ∉ known) →
      ∃ seg0 ∈ segs, firstToken seg0 ∉ known ∧
        validateSegments p known segs =
          ⟨p.raw, p.command, false, unknownMessage (firstToken seg0) known⟩
  | [], h => absurd h (by simp)
  | seg :: rest, h => by
    unfold validateSegments
    by_cases hc : known.contains (firstToken seg) = true
    · rw [if_pos hc]
      have hrest : ∃ s ∈ rest, firstToken s ∉ known := by
        obtain ⟨s0, hs0, hn⟩ := h
        rcases List.mem_cons.mp hs0 with rfl | hs0'
        · exact absurd (by simpa using hc) hn
        · exact ⟨s0, hs0', hn⟩
      obtain ⟨s0, hs0, hn, heq⟩ := validateSegments_finds p known rest hrest
      exact ⟨s0, List.mem_cons_of_mem seg hs0, hn, heq⟩
    · rw [if_neg hc]
      exact ⟨seg, List.mem_cons_self seg rest, fun hmem => hc (by simpa using hmem), rfl⟩

/-- **C4.** `validate_against_catalog` passes through already-invalid
inputs and empty catalogs unchanged; otherwise it splits the command on
`&&`, trims, drops empties, and checks each segment's first
whitespace-delimited token: if all are in the catalog the input is
returned unchanged, and if some leading token is missing it returns a
new `ParsedCommand` with `is_valid = false` whose rejection reason names
such a token and lists the sorted catalog. -/
theorem c4_validate_against_catalog (p : ParsedCommand) (known : List String) :
    (p.is_valid = false → validate_against_catalog p known = p) ∧
    (known = [] → validate_against_catalog p known = p) ∧
    (p.is_valid = true → known ≠ [] →
      ((∀ seg ∈ chainSegments p.command, firstToken seg ∈ known) →
        validate_against_catalog p known = p) ∧
      ((∃ seg ∈ chainSegments p.command, firstToken seg ∉ known) →
        (validate_against_catalog p known).is_valid = false ∧
        ∃ seg0 ∈ chainSegments p.command, firstToken seg0 ∉ known ∧
          validate_against_catalog p known =
            ⟨p.raw, p.command, false, unknownMessage (firstToken seg0) known⟩)) := by
  refine ⟨?_, ?_, ?_⟩
  · intro h
    simp [validate_against_catalog, h]
  · intro h
    subst h
    simp [validate_against_catalog]
  · intro hv hne
    have hk : known.isEmpty = false := by
      cases known with
      | nil => exact absurd rfl hne
      | cons a l => rfl
    have hval : validate_against_catalog p known =
        validateSegments p known (chainSegments p.command) := by
      simp [validate_against_catalog, hv, hk]
    constructor
    · intro hall
      rw [hval]
      exact validateSegments_all_pass p known _ hall
    · intro hex
      obtain ⟨s0, hs0, hn, heq⟩ := validateSegments_finds p known (chainSegments p.command) hex
      refine ⟨by rw [hval, heq], s0, hs0, hn, by rw [hval, heq]⟩

/-- Witness for C4: the spec's chain example with one unknown command. -/
theorem c4_validate_against_catalog_witness :
    (let p : ParsedCommand := ⟨"ls-dir /tmp && rm -rf /", "ls-dir /tmp && rm -rf /", true, ""⟩
     (p.is_valid = false → validate_against_catalog p ["ls-dir", "backup-file"] = p) ∧
     (["ls-dir", "backup-file"] = ([] : List String) →
        validate_against_catalog p ["ls-dir", "backup-file"] = p) ∧
     (p.is_valid = true → ["ls-dir", "backup-file"] ≠ ([] : List String) →
       ((∀ seg ∈ chainSegments p.command, firstToken seg ∈ ["ls-dir", "backup-file"]) →
         validate_against_catalog p ["ls-dir", "backup-file"] = p) ∧
       ((∃ seg ∈ chainSegments p.command, firstToken seg ∉ ["ls-dir", "backup-file"]) →
         (validate_against_catalog p ["ls-dir", "backup-file"]).is_valid = false ∧
         ∃ seg0 ∈ chainSegments p.command, firstToken seg0 ∉ ["ls-dir", "backup-file"] ∧
           validate_against_catalog p ["ls-dir", "backup-file"] =
             ⟨p.raw, p.command, false,
               unknownMessage (firstToken seg0) ["ls-dir", "backup-file"]⟩))) :=
  c4_validate_against_catalog
    ⟨"ls-dir /tmp && rm -rf /", "ls-dir /tmp && rm -rf /", true, ""⟩
    ["ls-dir", "backup-file"]

/-- Structure of the chain loop on an arbitrary segment list: the result
list is the segmentwise execution of an initial prefix of the segments;
every result before the last succeeded; if the loop stopped early the
last collected result failed; and the result list is empty exactly for
an empty segment list. -/
theorem runChain_structure (env : Env) (timeout : Nat) (cwd : Option String) :
    ∀ cmds : List String,
      (runChainT env timeout cwd cmds).1.length ≤ cmds.length ∧
      (runChainT env timeout cwd cmds).1 =
        (cmds.take (runChainT env timeout cwd cmds).1.length).map
          (fun c => execute_command env c timeout cwd) ∧
      (∀ i : Fin (runChainT env timeout cwd cmds).1.length,
        (i : Nat) + 1 < (runChainT env timeout cwd cmds).1.length →
        ((runChainT env timeout cwd cmds).1.get i).success = true) ∧
      ((runChainT env timeout cwd cmds).1.length < cmds.length →
        ∃ r, (runChainT env timeout cwd cmds).1.getLast? = some r ∧ r.success = false) ∧
      (cmds = [] ↔ (runChainT env timeout cwd cmds).1 = []) := by
  intro cmds
  induction cmds with
  | nil =>
    refine ⟨by simp [runChainT], rfl, ?_, ?_, by simp [runChainT]⟩
    · intro i h
      exact absurd i.isLt (by simp [runChainT])
    · intro h
      exact absurd h (by simp [runChainT])
  | cons cmd rest ih =>
    obtain ⟨ih1, ih2, ih3, ih4, ih5⟩ := ih
    by_cases hs : (executeCommandT env cmd timeout cwd).1.success = true
    · have hrw : runChainT env timeout cwd (cmd :: rest) =
          ((executeCommandT env cmd timeout cwd).1 :: (runChainT env timeout cwd rest).1,
            (executeCommandT env cmd timeout cwd).2 ++ (runChainT env timeout cwd rest).2) := by
        simp [runChainT, hs]
      rw [hrw]
      refine ⟨Nat.succ_le_succ ih1, ?_, ?_, ?_, ?_⟩
      · simp only [List.length_cons, List.take_succ_cons, List.map_cons]
        exact congrArg _ ih2
      · intro i h
        match i with
        | ⟨0, _⟩ => exact hs
        | ⟨j + 1, hj⟩ =>
          simp only [List.length_cons] at h hj
          have hj' : j + 1 < (runChainT env timeout cwd rest).1.length := by omega
          have hmain := ih3 ⟨j, by omega⟩ (by simpa using hj')
          simpa using hmain
      · intro h
        simp only [List.length_cons] at h
        obtain ⟨r, hr, hf⟩ := ih4 (by omega)
        match hres : (runChainT env timeout cwd rest).1 with
        | [] => rw [hres] at hr; simp at hr
        | b :: bs =>
          rw [hres] at hr
          exact ⟨r, by rw [List.getLast?_cons_cons]; exact hr, hf⟩
      · constructor
        · intro h; cases h
        · intro h; cases h
    · have hrw : runChainT env timeout cwd (cmd :: rest) =
          ([(executeCommandT env cmd timeout cwd).1], (executeCommandT env cmd timeout cwd).2) := by
        simp [runChainT, hs]
      rw [hrw]
      refine ⟨Nat.succ_le_succ (Nat.zero_le _), rfl, ?_, ?_, ?_⟩
      · intro i h
        simp only [List.length_singleton] at h
        omega
      · intro _
        exact ⟨(executeCommandT env cmd timeout cwd).1, rfl, by simpa using hs⟩
      · constructor
        · intro h; cases h
        · intro h; cases h

/-- **C2.** `execute_chain` splits its input on the literal `&&`, trims
and drops empty pieces (`chainSegments`), then runs segments strictly
left to right, stopping immediately after the first failing result: the
returned list is the execution of exactly an initial prefix of the
segments, all results before the last succeeded, an early stop means the
last result failed, and no segments at all yield the empty list. -/
theorem c2_chain_halt_on_failure (env : Env) (s : String) (timeout : Nat)
    (cwd : Option String) :
    (execute_chain env s timeout cwd).length ≤ (chainSegments s).length ∧
    execute_chain env s timeout cwd =
      ((chainSegments s).take (execute_chain env s timeout cwd).length).map
        (fun c => execute_command env c timeout cwd) ∧
    (∀ i : Fin (execute_chain env s timeout cwd).length,
      (i : Nat) + 1 < (execute_chain env s timeout cwd).length →
      ((execute_chain env s timeout cwd).get i).success = true) ∧
    ((execute_chain env s timeout cwd).length < (chainSegments s).length →
      ∃ r, (execute_chain env s timeout cwd).getLast? = some r ∧ r.success = false) ∧
    (chainSegments s = [] ↔ execute_chain env s timeout cwd = []) :=
  runChain_structure env timeout cwd (chainSegments s)

/-- Witness for C2: a two-segment chain in a concrete environment. -/
theorem c2_chain_halt_on_failure_witness :
    (execute_chain envDemo "echo a && echo b" 30 none).length ≤
      (chainSegments "echo a && echo b").length ∧
    execute_chain envDemo "echo a && echo b" 30 none =
      ((chainSegments "echo a && echo b").take
        (execute_chain envDemo "echo a && echo b" 30 none).length).map
          (fun c => execute_command envDemo c 30 none) ∧
    (∀ i : Fin (execute_chain envDemo "echo a && echo b" 30 none).length,
      (i : Nat) + 1 < (execute_chain envDemo "echo a && echo b" 30 none).length →
      ((execute_chain envDemo "echo a && echo b" 30 none).get i).success = true) ∧
    ((execute_chain envDemo "echo a && echo b" 30 none).length <
        (chainSegments "echo a && echo b").length →
      ∃ r, (execute_chain envDemo "echo a && echo b" 30 none).getLast? = some r ∧
        r.success = false) ∧
    (chainSegments "echo a && echo b" = [] ↔
      execute_chain envDemo "echo a && echo b" 30 none = []) :=
  c2_chain_halt_on_failure envDemo "echo a && echo b" 30 none

theorem isTickStart_shape (l : List Char) (h : isTickStart l = true) :
    ∃ rest, l = tickChar :: tickChar :: tickChar :: rest := by
  rcases l with _ | ⟨a, _ | ⟨b, _ | ⟨c, rest⟩⟩⟩
  · simp [isTickStart] at h
  · simp [isTickStart] at h
  · simp [isTickStart] at h
  · simp only [isTickStart, Bool.and_eq_true, beq_iff_eq] at h
    obtain ⟨⟨ha, hb⟩, hc⟩ := h
    exact ⟨rest, by rw [ha, hb, hc]⟩

theorem hasTick_append_left (u t : List Char) (h : hasTick u = true) :
    hasTick (u ++ t) = true := by
  induction u with
  | nil => simp [hasTick] at h
  | cons c rest ih =>
    rw [List.cons_append]
    unfold hasTick at h ⊢
    rcases Bool.or_eq_true_iff.mp h with h1 | h2
    · obtain ⟨rest', hsh⟩ := isTickStart_shape _ h1
      rw [List.cons_eq_cons] at hsh
      obtain ⟨hc, hrest⟩ := hsh
      subst hc
      rw [hrest, List.cons_append, List.cons_append]
      simp [isTickStart]
    · rw [ih h2]
      simp

theorem hasTick_of_append_false (u t : List Char) (h : hasTick (u ++ t) = false) :
    hasTick u = false := by
  cases hu : hasTick u with
  | false => rfl
  | true => rw [hasTick_append_left u t hu] at h; cases h

theorem hasTick_tail (c : Char) (rest : List Char) (h : hasTick (c :: rest) = false) :
    hasTick rest = false := by
  unfold hasTick at h
  exact (Bool.or_eq_false_iff.mp h).2

theorem hasTick_dropWhile (p : Char → Bool) (l : List Char) (h : hasTick l = false) :
    hasTick (l.dropWhile p) = false := by
  induction l with
  | nil => simpa using h
  | cons c rest ih =>
    rw [List.dropWhile_cons]
    split
    · exact ih (hasTick_tail c rest h)
    · exact h

theorem fenceSearch_eq_none_of_hasTick (w : List Char) (h : hasTick w = false) :
    fenceSearch w = none := by
  induction w with
  | nil => rfl
  | cons c rest ih =>
    unfold hasTick at h
    obtain ⟨h1, h2⟩ := Bool.or_eq_false_iff.mp h
    unfold fenceSearch
    rw [if_neg (by simp [h1])]
    exact ih h2

theorem splitAtTick_shape (w : List Char) :
    ∀ b d : List Char, splitAtTick w = some (b, d) →
      w = b ++ tickChar :: tickChar :: tickChar :: d ∧ hasTick b = false := by
  induction w with
  | nil => intro b d h; cases h
  | cons c rest ih =>
    intro b d h
    unfold splitAtTick at h
    split at h
    · rename_i hts
      injection h with h'
      injection h' with hb hd
      subst hb
      subst hd
      obtain ⟨rest', hsh⟩ := isTickStart_shape _ hts
      rw [List.cons_eq_cons] at hsh
      obtain ⟨hc, hrest⟩ := hsh
      refine ⟨?_, rfl⟩
      rw [List.nil_append, hc, hrest]
      simp
    · rename_i hts
      rcases hsp : splitAtTick rest with _ | ⟨b', a'⟩
      · rw [hsp] at h
        cases h
      · rw [hsp] at h
        injection h with h'
        injection h' with hb hd
        subst hd
        subst hb
        obtain ⟨hshape, hnt⟩ := ih b' a' hsp
        refine ⟨by rw [List.cons_append, hshape], ?_⟩
        unfold hasTick
        rw [Bool.or_eq_false_iff]
        refine ⟨?_, hnt⟩
        cases hts2 : isTickStart (c :: b') with
        | false => rfl
        | true =>
          obtain ⟨rest2, hsh2⟩ := isTickStart_shape _ hts2
          rw [List.cons_eq_cons] at hsh2
          obtain ⟨hc, hb'⟩ := hsh2
          exfalso
          apply hts
          rw [hc, hshape, hb']
          simp [isTickStart, List.cons_append]

/-- Witness for C10 with a concrete catalog and environment. -/
theorem c10_separator_only_witness :
    parse_llm_output "&&" = ⟨"&&", "&&", true, ""⟩ ∧
    validate_against_catalog (parse_llm_output "&&") ["ls-dir"] = parse_llm_output "&&" ∧
    executeParsedCommandT envDemo (parse_llm_output "&&") 30 none = .ok ([], []) :=
  c10_separator_only ["ls-dir"] (by decide) envDemo 30 none

theorem splitAtTick_append (w : List Char) :
    ∀ b d t : List Char, splitAtTick w = some (b, d) →
      splitAtTick (w ++ t) = some (b, d ++ t) := by
  induction w with
  | nil => intro b d t h; cases h
  | cons c rest ih =>
    intro b d t h
    unfold splitAtTick at h
    rw [List.cons_append]
    unfold splitAtTick
    split at h
    · rename_i hts
      injection h with h'
      injection h' with hb hd
      subst hb
      subst hd
      obtain ⟨rest', hsh⟩ := isTickStart_shape _ hts
      rw [List.cons_eq_cons] at hsh
      obtain ⟨hc, hrest⟩ := hsh
      rw [if_pos (by rw [hc, hrest]; simp [isTickStart, List.cons_append])]
      rw [hrest]
      simp
    · rename_i hts
      rcases hsp : splitAtTick rest with _ | ⟨b', a'⟩
      · rw [hsp] at h
        cases h
      · rw [hsp] at h
        injection h with h'
        injection h' with hb hd
        subst hd
        subst hb
        obtain ⟨hshape, _⟩ := splitAtTick_shape rest b' a' hsp
        have hts2 : isTickStart (c :: (rest ++ t)) = false := by
          cases hts2 : isTickStart (c :: (rest ++ t)) with
          | false => rfl
          | true =>
            obtain ⟨rest2, hsh2⟩ := isTickStart_shape _ hts2
            rw [List.cons_eq_cons] at hsh2
            obtain ⟨hc, hrt⟩ := hsh2
            exfalso
            apply hts
            rw [hshape] at hrt ⊢
            rcases b' with _ | ⟨e, _ | ⟨f, b''⟩⟩ <;>
              simp_all [isTickStart, List.cons_append, hc]
        rw [if_neg (by simp [hts2])]
        rw [ih b' a' t hsp]

theorem wordRunLen_append_eq (w t : List Char) (h : wordRunLen w < w.length) :
    wordRunLen (w ++ t) = wordRunLen w := by
  induction w with
  | nil => simp at h
  | cons c rest ih =>
    rw [List.cons_append]
    by_cases hw : pyIsWordChar c = true
    · simp only [wordRunLen, hw, if_true]
      simp only [wordRunLen, hw, if_true, List.length_cons] at h
      rw [ih (by omega)]
    · simp only [wordRunLen, hw]
      simp

theorem fenceAttempt_append (w t cap : List Char) (h : fenceAttempt w = some cap) :
    (fenceAttempt (w ++ t)).isSome = true := by
  unfold fenceAttempt at h ⊢
  rcases hsp : splitAtTick (dropNl (w.drop (wordRunLen w))) with _ | ⟨b', d'⟩
  · rw [hsp] at h
    cases h
  · have hlt : wordRunLen w < w.length := by
      by_contra hge
      have hnil : w.drop (wordRunLen w) = [] :=
        List.drop_eq_nil_of_le (by omega)
      rw [hnil] at hsp
      cases hsp
    rw [wordRunLen_append_eq w t hlt]
    have hdrop : (w ++ t).drop (wordRunLen w) = w.drop (wordRunLen w) ++ t :=
      List.drop_append_of_le_length (Nat.le_of_lt hlt)
    rw [hdrop]
    rcases hwd : w.drop (wordRunLen w) with _ | ⟨d0, ds⟩
    · rw [hwd] at hsp
      cases hsp
    · rw [hwd] at hsp
      have hdn : dropNl ((d0 :: ds) ++ t) = dropNl (d0 :: ds) ++ t := by
        rw [List.cons_append]
        simp only [dropNl]
        split <;> simp
      rw [hdn, splitAtTick_append _ b' d' t hsp]
      rfl

theorem fenceSearch_append_isSome (u t : List Char)
    (h : (fenceSearch u).isSome = true) : (fenceSearch (u ++ t)).isSome = true := by
  induction u with
  | nil => simp [fenceSearch] at h
  | cons c rest ih =>
    rw [List.cons_append]
    unfold fenceSearch at h ⊢
    by_cases hts : isTickStart (c :: rest) = true
    · rw [if_pos hts] at h
      obtain ⟨rest', hsh⟩ := isTickStart_shape _ hts
      rw [List.cons_eq_cons] at hsh
      obtain ⟨hc, hrest⟩ := hsh
      have hts2 : isTickStart (c :: (rest ++ t)) = true := by
        rw [hc, hrest]
        simp [isTickStart, List.cons_append]
      rw [if_pos hts2]
      rcases hat : fenceAttempt (rest.drop 2) with _ | cap
      · rw [hat] at h
        rcases hat2 : fenceAttempt ((rest ++ t).drop 2) with _ | cap2
        · exact ih h
        · rfl
      · have hd2 : (rest ++ t).drop 2 = rest.drop 2 ++ t :=
          List.drop_append_of_le_length (by rw [hrest]; simp)
        rw [hd2]
        obtain ⟨cap2, hcap2⟩ :=
          Option.isSome_iff_exists.mp (fenceAttempt_append (rest.drop 2) t cap hat)
        rw [hcap2]
        rfl
    · rw [if_neg hts] at h
      by_cases hts2 : isTickStart (c :: (rest ++ t)) = true
      · rw [if_pos hts2]
        rcases hat2 : fenceAttempt ((rest ++ t).drop 2) with _ | cap2
        · exact ih h
        · rfl
      · rw [if_neg hts2]
        exact ih h

theorem fenceSearch_none_of_append (u t : List Char)
    (h : fenceSearch (u ++ t) = none) : fenceSearch u = none := by
  cases hu : fenceSearch u with
  | none => rfl
  | some cap =>
    have := fenceSearch_append_isSome u t (by rw [hu]; rfl)
    rw [h] at this
    cases this

theorem fenceSearch_tail_none (c : Char) (rest : List Char)
    (h : fenceSearch (c :: rest) = none) : fenceSearch rest = none := by
  unfold fenceSearch at h
  split at h
  · rcases hat : fenceAttempt (rest.drop 2) with _ | cap
    · rw [hat] at h
      exact h
    · rw [hat] at h
      cases h
  · exact h

theorem fenceSearch_dropWhile_none (p : Char → Bool) (l : List Char)
    (h : fenceSearch l = none) : fenceSearch (l.dropWhile p) = none := by
  induction l with
  | nil => simpa using h
  | cons c rest ih =>
    rw [List.dropWhile_cons]
    split
    · exact ih (fenceSearch_tail_none c rest h)
    · exact h

theorem fenceAttempt_cap_noTick (w cap : List Char) (h : fenceAttempt w = some cap) :
    hasTick cap = false := by
  unfold fenceAttempt at h
  rcases hsp : splitAtTick (dropNl (w.drop (wordRunLen w))) with _ | ⟨b', d'⟩
  · rw [hsp] at h
    cases h
  · rw [hsp] at h
    injection h with h'
    subst h'
    exact (splitAtTick_shape _ b' d' hsp).2

theorem fenceSearch_cap_noTick (l : List Char) :
    ∀ cap : List Char, fenceSearch l = some cap → hasTick cap = false := by
  induction l with
  | nil => intro cap h; cases h
  | cons c rest ih =>
    intro cap h
    unfold fenceSearch at h
    split at h
    · rcases hat : fenceAttempt (rest.drop 2) with _ | cap'
      · rw [hat] at h
        exact ih cap h
      · rw [hat] at h
        injection h with h'
        exact h' ▸ fenceAttempt_cap_noTick _ cap' hat
    · exact ih cap h

theorem dropWhile_eq_self_of_append (p : Char → Bool) (u t : List Char)
    (h : (u ++ t).dropWhile p = u ++ t) : u.dropWhile p = u := by
  cases u with
  | nil => rfl
  | cons c u' =>
    rw [List.cons_append, List.dropWhile_cons] at h
    rw [List.dropWhile_cons]
    split at h
    · exfalso
      have hlen := congrArg List.length h
      have hle : ((u' ++ t).dropWhile p).length ≤ (u' ++ t).length :=
        (List.dropWhile_suffix p).sublist.length_le
      simp only [List.length_cons] at hlen
      omega
    · rename_i hc
      rw [if_neg hc]

theorem dropWhile_rdropWhile_self (l : List Char) :
    ((l.dropWhile pyIsSpace).rdropWhile pyIsSpace).dropWhile pyIsSpace =
      (l.dropWhile pyIsSpace).rdropWhile pyIsSpace := by
  obtain ⟨t, ht⟩ := List.rdropWhile_prefix pyIsSpace (l.dropWhile pyIsSpace)
  refine dropWhile_eq_self_of_append pyIsSpace _ t ?_
  rw [ht]
  exact List.dropWhile_idempotent pyIsSpace l

theorem pyStripL_idem (l : List Char) : pyStripL (pyStripL l) = pyStripL l := by
  unfold pyStripL
  rw [dropWhile_rdropWhile_self l]
  exact List.rdropWhile_idempotent _ _

theorem fenceSearch_pyStripL_none (l : List Char) (h : fenceSearch l = none) :
    fenceSearch (pyStripL l) = none := by
  unfold pyStripL
  have h1 : fenceSearch (l.dropWhile pyIsSpace) = none := fenceSearch_dropWhile_none _ l h
  obtain ⟨t, ht⟩ := List.rdropWhile_prefix pyIsSpace (l.dropWhile pyIsSpace)
  exact fenceSearch_none_of_append _ t (by rw [ht]; exact h1)

theorem hasTick_pyStripL (l : List Char) (h : hasTick l = false) :
    hasTick (pyStripL l) = false := by
  unfold pyStripL
  have h1 := hasTick_dropWhile pyIsSpace l h
  obtain ⟨t, ht⟩ := List.rdropWhile_prefix pyIsSpace (l.dropWhile pyIsSpace)
  exact hasTick_of_append_false _ t (by rw [ht]; exact h1)

theorem pyStrip_idem (s : String) : pyStrip (pyStrip s) = pyStrip s :=
  congrArg String.mk (pyStripL_idem s.data)

/-- **C9.** Parsing is idempotent on its own valid output: if
`parse_llm_output x` is valid with command `c`, then `parse_llm_output c`
is valid with command `c` (and raw `c`, empty rejection reason) — no
double-fence-stripping artifacts. -/
theorem c9_parse_idempotent (x : String)
    (h : (parse_llm_output x).is_valid = true) :
    parse_llm_output ((parse_llm_output x).command) =
      ⟨(parse_llm_output x).command, (parse_llm_output x).command, true, ""⟩ := by
  have hcase : pyStrip (strip_fences x) ≠ "" ∧
      isRefusal (pyStrip (strip_fences x)) = false ∧
      (parse_llm_output x).command = pyStrip (strip_fences x) := by
    by_cases h1 : (pyStrip (strip_fences x) == "") = true
    · exfalso
      simp [parse_llm_output, h1] at h
    · by_cases h2 : isRefusal (pyStrip (strip_fences x)) = true
      · exfalso
        simp [parse_llm_output, h1, h2] at h
      · refine ⟨by simpa using h1, by simpa using h2, ?_⟩
        simp [parse_llm_output, h1, h2]
  obtain ⟨hne, href, hcmd⟩ := hcase
  have hnofence : fenceSearch (pyStrip (strip_fences x)).data = none := by
    rcases hfs : fenceSearch x.data with _ | cap
    · have hsx : strip_fences x = x := by simp [strip_fences, hfs]
      rw [hsx]
      exact fenceSearch_pyStripL_none x.data hfs
    · have hsx : strip_fences x = pyStrip (String.mk cap) := by simp [strip_fences, hfs]
      have hcap : hasTick cap = false := fenceSearch_cap_noTick x.data cap hfs
      rw [hsx, pyStrip_idem]
      exact fenceSearch_eq_none_of_hasTick _ (hasTick_pyStripL cap hcap)
  have hstripc : strip_fences (pyStrip (strip_fences x)) = pyStrip (strip_fences x) := by
    generalize pyStrip (strip_fences x) = y at hnofence ⊢
    unfold strip_fences
    rw [hnofence]
  have hclean : pyStrip (strip_fences (pyStrip (strip_fences x))) =
      pyStrip (strip_fences x) := by
    rw [hstripc]
    exact pyStrip_idem (strip_fences x)
  rw [hcmd]
  simp [parse_llm_output, hclean, hne, href]

/-- Witness for C9 at the spec's example of already-cleaned text. -/
theorem c9_parse_idempotent_witness :
    parse_llm_output ((parse_llm_output "ls-dir /tmp").command) =
      ⟨(parse_llm_output "ls-dir /tmp").command,
        (parse_llm_output "ls-dir /tmp").command, true, ""⟩ :=
  c9_parse_idempotent "ls-dir /tmp" (by decide)

end VoiceAgent
